import Mathlib

/-!
Shallow embedding of the deterministic scheduling core of
`src/clock_api.py` (random-clock-api), together with theorems checking the
natural-language specification against it.

Conventions of the embedding:
* Python lists become `List`; the content pool items (Python dicts
  `{content, card}`) become the `ContentItem` structure; functions that are
  generic in the element type (the shuffle) are embedded polymorphically.
* Python integers are `Int` (arbitrary precision, `%` with positive modulus
  agrees with Lean's `Int.emod`); minute indices that are known non-negative
  are `Nat`.
* `SeededRandom.next` returns `state / 233280` as an exact rational (for
  the PRNG contract, where the exact value is the documented reading).
  The shuffle's draw `int(rng.next() * (i + 1))`, however, is evaluated by
  the program in IEEE-754 binary64, and its roundings are observable; the
  embedding therefore models that draw bit-exactly (`roundFloat`,
  `floatDraw`): one rounding for the division by 233280, one for the
  multiplication by `i + 1`, then truncation.  At reachable states this
  differs from the exact `floor(next() * (i + 1))`, as proved below at
  state 67392.
* Fallible code (Python exceptions) returns `Option` / `Except`.
-/

namespace ClockApi

/-- Python class `SeededRandom`: the seeded linear-congruential generator.
`self.seed` can be any Python integer. -/
structure SeededRandom where
  seed : Int
deriving DecidableEq, Repr

/-- The state update performed by `SeededRandom.next`:
`self.seed = (self.seed * 9301 + 49297) % 233280`.  Returns the new
generator together with the new (always non-negative) state. -/
def SeededRandom.step (r : SeededRandom) : SeededRandom × Int :=
  let s := (r.seed * 9301 + 49297) % 233280
  (⟨s⟩, s)

/-- Method `SeededRandom.next`: update the state, then return `self.seed / 233280`
(as an exact rational; the Python source computes a float). -/
def SeededRandom.next (r : SeededRandom) : SeededRandom × ℚ :=
  let (r', s) := r.step
  (r', (s : ℚ) / 233280)

/-- The generator state reached from `seed` after `n` calls to `next`. -/
def SeededRandom.states (seed : Int) : Nat → SeededRandom
  | 0 => ⟨seed⟩
  | n + 1 => ((SeededRandom.states seed n).step).1

/-- The `n`-th value (0-indexed) of the output stream of a generator
constructed from `seed`. -/
def SeededRandom.outputs (seed : Int) (n : Nat) : ℚ :=
  ((SeededRandom.states seed n).next).2

/-! ### IEEE-754 binary64 arithmetic for the shuffle draw

The source computes `j = int(rng.next() * (i + 1))` in Python floats —
IEEE-754 binary64, round to nearest, ties to even: one rounding in the
division `self.seed / 233280` inside `next()` and one in the
multiplication by `i + 1` (the integer `i + 1` converts to binary64
exactly).  These roundings are observable: at reachable states the float
result of the truncation differs from the exact
`floor(state / 233280 * (i + 1))`, so the draw is embedded as the float
computation, not idealized.  A non-negative binary64 value is represented
as a dyadic pair `(m, e)` with value `m * 2 ^ e`, normalized so that
`2 ^ 52 ≤ m < 2 ^ 53` (zero is `(0, 0)`; every non-zero quantity arising
here is in the normal range, far from overflow and underflow). -/

/-- Doublings of `n` needed to reach `lo ≤ n * 2 ^ u` (fuel-bounded; the
quantities arising here need at most about 70 of the 1200 provided). -/
def upShift : Nat → Nat → Nat → Nat
  | 0, _, _ => 0
  | f + 1, n, lo => if lo ≤ n then 0 else upShift f (2 * n) lo + 1

/-- Doublings of `hi` needed to reach `n < hi * 2 ^ v` (fuel-bounded). -/
def downShift : Nat → Nat → Nat → Nat
  | 0, _, _ => 0
  | f + 1, n, hi => if n < hi then 0 else downShift f n (2 * hi) + 1

/-- Round the non-negative rational `n / d` (with `d > 0`) to the nearest
binary64 value, ties to even, assuming the result is zero or in the
normal range: scale until `2 ^ 52 * d' ≤ n' < 2 ^ 53 * d'`, divide with
remainder, round the 53-bit mantissa, and renormalize a mantissa
overflow. -/
def roundFloat (n d : Nat) : Nat × Int :=
  if n = 0 then (0, 0)
  else
    let u := upShift 1200 n (2 ^ 52 * d)
    let n' := n * 2 ^ u
    let v := downShift 1200 n' (2 ^ 53 * d)
    let d' := d * 2 ^ v
    let m0 := n' / d'
    let r := n' % d'
    let m :=
      if 2 * r < d' then m0
      else if d' < 2 * r then m0 + 1
      else if m0 % 2 = 0 then m0 else m0 + 1
    if m = 2 ^ 53 then (2 ^ 52, (v : Int) - (u : Int) + 1)
    else (m, (v : Int) - (u : Int))

/-- The binary64 product of a float and a natural number (the number is
below `2 ^ 53`, so its conversion to binary64 is exact): multiply the
mantissa and round once. -/
def floatMulNat (x : Nat × Int) (k : Nat) : Nat × Int :=
  let p := roundFloat (x.1 * k) 1
  (p.1, p.2 + x.2)

/-- Python `int()` truncation of a non-negative binary64 value (equal to
the floor). -/
def floatTrunc (x : Nat × Int) : Nat :=
  if 0 ≤ x.2 then x.1 * 2 ^ x.2.toNat else x.1 / 2 ^ (-x.2).toNat

/-- The draw `j = int(rng.next() * (i + 1))` exactly as the program
computes it: binary64 division of the (non-negative) post-update state by
233280, binary64 multiplication by `i + 1`, truncation toward zero. -/
def floatDraw (s : Nat) (k : Nat) : Nat :=
  floatTrunc (floatMulNat (roundFloat s 233280) k)

/-- Exchange the elements at positions `i` and `j` of a list
(`shuffled[i], shuffled[j] = shuffled[j], shuffled[i]`); out-of-range
positions leave the list unchanged (the shuffle below only ever swaps in
range). -/
def swapAt (l : List α) (i j : Nat) : List α :=
  if h : i < l.length ∧ j < l.length then
    (l.set i (l.get ⟨j, h.2⟩)).set j (l.get ⟨i, h.1⟩)
  else l

/-- The loop `for i in range(len(shuffled) - 1, 0, -1)` of
`shuffle_with_seed`, embedded as a downward recursion: the argument is the
current loop index `i`; index `0` terminates (Python's range stops at 1).
The draw `j = int(rng.next() * (i + 1))` is the binary64 computation
`floatDraw` on the (non-negative) post-update state. -/
def fyLoop (r : SeededRandom) (l : List α) : Nat → List α
  | 0 => l
  | i + 1 =>
    let (r', s) := r.step
    let j := floatDraw s.toNat (i + 2)
    fyLoop r' (swapAt l (i + 1) j) i

/-- Function `shuffle_with_seed(array, seed)`: copy the array and Fisher–Yates
shuffle it with a fresh `SeededRandom(seed)`. -/
def shuffle_with_seed (array : List α) (seed : Int) : List α :=
  fyLoop ⟨seed⟩ array (array.length - 1)

/-- The loop `for item in ITEMS: tripled.extend([item, item, item])` of
`generate_daily_schedule`, starting from the empty list. -/
def tripled (pool : List α) : List α :=
  pool.foldl (fun acc item => acc ++ [item, item, item]) []

/-- Function `generate_daily_schedule()`: triple the pool, then shuffle with the
seed.  The module-global `ITEMS` and the date seed `get_today_seed()` are
made explicit parameters. -/
def generate_daily_schedule (pool : List α) (seed : Int) : List α :=
  shuffle_with_seed (tripled pool) seed

/-! ### The schedule builder as written in the specification

These two definitions transcribe the specification's algorithm (§4.2)
word for word, to be compared with the source-derived definitions above:
step 1 "the pool iterated once, each element pushed 3 times consecutively,
in original pool order", and step 2 "iterate index `i` from `length-1` down
to `1`; draw `j = floor(next() * (i+1))`; swap elements at `i` and `j`". -/

/-- Modelled from the spec: the working sequence of §4.2 step 1. -/
def specWorking (pool : List α) : List α :=
  pool.flatMap (fun x => [x, x, x])

/-- Modelled from the spec: the Fisher–Yates iteration of §4.2 step 2,
`j = floor(next() * (i + 1))` taken literally on the exact value of
`next()`. -/
def specFYLoop (r : SeededRandom) (l : List α) : Nat → List α
  | 0 => l
  | i + 1 =>
    let (r', q) := r.next
    let j := (⌊q * (((i + 1 : Nat) : ℚ) + 1)⌋).toNat
    specFYLoop r' (swapAt l (i + 1) j) i

/-- Modelled from the spec: §4.2 in full — build the working sequence, then
shuffle it, iterating `i` from `length - 1` down to `1`. -/
def specSchedule (pool : List α) (seed : Int) : List α :=
  specFYLoop ⟨seed⟩ (specWorking pool) ((specWorking pool).length - 1)

/-- Modelled from the spec: the draw `j = floor(next() * (i + 1))` of
§4.2 step 2 as a function of the post-update state `s` and the multiplier
`k = i + 1`, on the exact value `s / 233280` of `next()`. -/
def exactDraw (s : Int) (k : Nat) : Nat :=
  (⌊((s : ℚ) / 233280) * (k : ℚ)⌋).toNat

/-- A computable integer-arithmetic evaluation of `specFYLoop`: for the
non-negative post-update state, the exact `floor(s / 233280 * (i + 1))`
is the integer division `s * (i + 1) / 233280` (proved below as
`int_div_eq_floor`); used to evaluate the specification's schedule on
concrete inputs. -/
def specFYLoopInt (r : SeededRandom) (l : List α) : Nat → List α
  | 0 => l
  | i + 1 =>
    let (r', s) := r.step
    let j := ((s * ((i : Int) + 2)) / 233280).toNat
    specFYLoopInt r' (swapAt l (i + 1) j) i

/-- The computable twin of `specSchedule` (proved equal below). -/
def specScheduleInt (pool : List α) (seed : Int) : List α :=
  specFYLoopInt ⟨seed⟩ (specWorking pool) ((specWorking pool).length - 1)

/-- Modelled from the spec, as amended: §4.2 step 2 with the draw
evaluated the way the program actually computes it — the binary64
evaluation of `next() * (i + 1)`, truncated. -/
def specFYLoopFloat (r : SeededRandom) (l : List α) : Nat → List α
  | 0 => l
  | i + 1 =>
    let (r', s) := r.step
    let j := floatDraw s.toNat (i + 2)
    specFYLoopFloat r' (swapAt l (i + 1) j) i

/-- Modelled from the spec, as amended: build the working sequence, then
iterate `i` from `length - 1` down to `1` with the binary64 draw. -/
def specScheduleFloat (pool : List α) (seed : Int) : List α :=
  specFYLoopFloat ⟨seed⟩ (specWorking pool) ((specWorking pool).length - 1)

/-! ### Python primitives used by the `compose` endpoint

`compose` parses `body['time24']` with
`hours, mins = map(int, time24.split(':'))` and indexes the schedule with
`schedule[minute]`.  The next definitions embed the relevant Python
builtins: `str.split` with a one-character separator, the `int()`
constructor on strings (optional surrounding ASCII whitespace, an optional
sign, then decimal digits; Python additionally accepts Unicode digits,
Unicode whitespace and underscore digit-group separators, which none of the
inputs considered here contain and which are not modelled), and list
indexing with Python's negative-index wraparound. -/

/-- Characters stripped by `int()` around a numeric literal. -/
def isPySpace (c : Char) : Bool :=
  c = ' ' ∨ c = '\t' ∨ c = '\n' ∨ c = '\x0b' ∨ c = '\x0c' ∨ c = '\r'

/-- Strip leading and trailing whitespace, as `int()` does. -/
def stripSpaces (cs : List Char) : List Char :=
  ((cs.dropWhile isPySpace).reverse.dropWhile isPySpace).reverse

/-- The value of a non-empty all-digit string; `none` otherwise. -/
def digitsVal (cs : List Char) : Option Nat :=
  if cs ≠ [] ∧ cs.all Char.isDigit then
    some (cs.foldl (fun a c => 10 * a + (c.toNat - 48)) 0)
  else none

/-- Python `int(s)` on a string: strip whitespace, optional single sign, decimal
digits; any other shape raises `ValueError`, embedded as `none`. -/
def pyInt (cs : List Char) : Option Int :=
  match stripSpaces cs with
  | '+' :: rest => (digitsVal rest).map (fun n => (n : Int))
  | '-' :: rest => (digitsVal rest).map (fun n => -(n : Int))
  | rest => (digitsVal rest).map (fun n => (n : Int))

/-- Python `s.split(sep)` for a one-character separator: Python's split always
returns at least one (possibly empty) field. -/
def splitCh (sep : Char) : List Char → List (List Char)
  | [] => [[]]
  | c :: cs =>
    let r := splitCh sep cs
    if c = sep then [] :: r
    else
      match r with
      | [] => [[c]]
      | g :: gs => (c :: g) :: gs

/-- The statement `hours, mins = map(int, time24.split(':'))`: succeeds exactly when the
split yields two fields and both parse as integers; any failure (wrong
field count for the unpacking, or `int()` raising) is `none`
(an uncaught `ValueError` in the source). -/
def parseTime24 (t : String) : Option (Int × Int) :=
  match splitCh ':' t.data with
  | [h, m] =>
    match pyInt h, pyInt m with
    | some a, some b => some (a, b)
    | _, _ => none
  | _ => none

/-- The value `minute = hours * 60 + mins` after a successful parse. -/
def resolvedMinute (t : String) : Option Int :=
  (parseTime24 t).map (fun p => p.1 * 60 + p.2)

/-- Python list indexing `l[i]` with an `int` index: non-negative indices
address from the front, negative indices wrap to `len(l) + i`; anything
out of range raises `IndexError`, embedded as `none`. -/
def pyIndex (l : List α) (i : Int) : Option α :=
  if 0 ≤ i then l.get? i.toNat
  else
    let j := (l.length : Int) + i
    if 0 ≤ j then l.get? j.toNat else none

/-- One entry of `ITEMS` (`data['items']`): a `{content, card}` record. -/
structure ContentItem where
  content : String
  card : String
deriving DecidableEq, Repr

/-- The expression `current_item['content'].replace('–', '-')`: since the pattern is the
single character U+2013 (en dash) and the replacement the single character
`-`, Python's substring replacement is exactly a character map. -/
def replaceEnDash (s : String) : String :=
  ⟨s.data.map (fun c => if c = '–' then '-' else c)⟩

/-! ### `hashlib.md5` and `generate_poem_id`

`generate_poem_id` hashes `f"{time24}-{content}".encode()` with MD5 and
keeps the first 8 hex characters.  `str.encode()` is UTF-8; MD5 (RFC 1321)
is embedded below over lists of byte values (`Nat` below 256), with 32-bit
words as `Nat` reduced mod `2 ^ 32`. -/

/-- UTF-8 encoding of one character (scalar value; Lean `Char` carries no
surrogates, matching Python `str`). -/
def utf8Bytes (c : Char) : List Nat :=
  let n := c.toNat
  if n < 128 then [n]
  else if n < 2048 then [192 + n / 64, 128 + n % 64]
  else if n < 65536 then [224 + n / 4096, 128 + (n / 64) % 64, 128 + n % 64]
  else [240 + n / 262144, 128 + (n / 4096) % 64, 128 + (n / 64) % 64, 128 + n % 64]

/-- Python `s.encode()`: the UTF-8 bytes of a string. -/
def strBytes (s : String) : List Nat :=
  s.data.flatMap utf8Bytes

/-- Reduce to a 32-bit word. -/
def w32 (n : Nat) : Nat := n % 4294967296

/-- Rotate a 32-bit word left by `c` bits (`0 < c < 32`). -/
def rotl32 (x c : Nat) : Nat := w32 (x <<< c) ||| (x >>> (32 - c))

/-- Bitwise complement of a 32-bit word. -/
def not32 (x : Nat) : Nat := x ^^^ 4294967295

/-- The MD5 sine-derived constant table `K[0..63]` (RFC 1321). -/
def md5K : List Nat :=
  [0xd76aa478, 0xe8c7b756, 0x242070db, 0xc1bdceee, 0xf57c0faf, 0x4787c62a,
   0xa8304613, 0xfd469501, 0x698098d8, 0x8b44f7af, 0xffff5bb1, 0x895cd7be,
   0x6b901122, 0xfd987193, 0xa679438e, 0x49b40821, 0xf61e2562, 0xc040b340,
   0x265e5a51, 0xe9b6c7aa, 0xd62f105d, 0x02441453, 0xd8a1e681, 0xe7d3fbc8,
   0x21e1cde6, 0xc33707d6, 0xf4d50d87, 0x455a14ed, 0xa9e3e905, 0xfcefa3f8,
   0x676f02d9, 0x8d2a4c8a, 0xfffa3942, 0x8771f681, 0x6d9d6122, 0xfde5380c,
   0xa4beea44, 0x4bdecfa9, 0xf6bb4b60, 0xbebfbc70, 0x289b7ec6, 0xeaa127fa,
   0xd4ef3085, 0x04881d05, 0xd9d4d039, 0xe6db99e5, 0x1fa27cf8, 0xc4ac5665,
   0xf4292244, 0x432aff97, 0xab9423a7, 0xfc93a039, 0x655b59c3, 0x8f0ccc92,
   0xffeff47d, 0x85845dd1, 0x6fa87e4f, 0xfe2ce6e0, 0xa3014314, 0x4e0811a1,
   0xf7537e82, 0xbd3af235, 0x2ad7d2bb, 0xeb86d391]

/-- The MD5 per-round left-rotation amounts `S[0..63]`. -/
def md5S : List Nat :=
  [7, 12, 17, 22, 7, 12, 17, 22, 7, 12, 17, 22, 7, 12, 17, 22,
   5, 9, 14, 20, 5, 9, 14, 20, 5, 9, 14, 20, 5, 9, 14, 20,
   4, 11, 16, 23, 4, 11, 16, 23, 4, 11, 16, 23, 4, 11, 16, 23,
   6, 10, 15, 21, 6, 10, 15, 21, 6, 10, 15, 21, 6, 10, 15, 21]

/-- The four-word MD5 chaining state. -/
structure MD5State where
  a : Nat
  b : Nat
  c : Nat
  d : Nat
deriving DecidableEq, Repr

/-- The little-endian 32-bit word at position `g` of a 64-byte block. -/
def blockWord (block : List Nat) (g : Nat) : Nat :=
  block.getD (4 * g) 0 + 256 * block.getD (4 * g + 1) 0 +
    65536 * block.getD (4 * g + 2) 0 + 16777216 * block.getD (4 * g + 3) 0

/-- One of the 64 MD5 rounds on a block. -/
def md5Round (block : List Nat) (st : MD5State) (i : Nat) : MD5State :=
  let f :=
    if i < 16 then (st.b &&& st.c) ||| (not32 st.b &&& st.d)
    else if i < 32 then (st.d &&& st.b) ||| (not32 st.d &&& st.c)
    else if i < 48 then st.b ^^^ st.c ^^^ st.d
    else st.c ^^^ (st.b ||| not32 st.d)
  let g :=
    if i < 16 then i
    else if i < 32 then (5 * i + 1) % 16
    else if i < 48 then (3 * i + 5) % 16
    else (7 * i) % 16
  let rotated := rotl32 (w32 (st.a + f + md5K.getD i 0 + blockWord block g)) (md5S.getD i 0)
  ⟨st.d, w32 (st.b + rotated), st.b, st.c⟩

/-- Process one 64-byte block: 64 rounds, then add into the chaining
state. -/
def md5Block (st : MD5State) (block : List Nat) : MD5State :=
  let r := (List.range 64).foldl (md5Round block) st
  ⟨w32 (st.a + r.a), w32 (st.b + r.b), w32 (st.c + r.c), w32 (st.d + r.d)⟩

/-- MD5 padding: a `0x80` byte, zeros to 56 mod 64, then the bit length as
a 64-bit little-endian quantity. -/
def md5Pad (msg : List Nat) : List Nat :=
  let zeros := (56 + 64 - (msg.length + 1) % 64) % 64
  let bitLen := (8 * msg.length) % 18446744073709551616
  msg ++ 128 :: List.replicate zeros 0 ++
    [bitLen % 256, (bitLen / 256) % 256, (bitLen / 65536) % 256,
     (bitLen / 16777216) % 256, (bitLen / 4294967296) % 256,
     (bitLen / 1099511627776) % 256, (bitLen / 281474976710656) % 256,
     (bitLen / 72057594037927936) % 256]

/-- Split a byte list into 64-byte chunks. -/
def chunks64 (l : List Nat) : List (List Nat) :=
  if h : l = [] then []
  else
    have : (l.drop 64).length < l.length := by
      cases l with
      | nil => exact absurd rfl h
      | cons x xs => simp [List.length_drop]; omega
    l.take 64 :: chunks64 (l.drop 64)
termination_by l.length

/-- The four bytes of a 32-bit word, little-endian (the order `hexdigest`
emits each state word). -/
def wordLEBytes (w : Nat) : List Nat :=
  [w % 256, (w / 256) % 256, (w / 65536) % 256, (w / 16777216) % 256]

/-- The 16-byte MD5 digest of a byte string. -/
def md5Digest (msg : List Nat) : List Nat :=
  let final := (chunks64 (md5Pad msg)).foldl md5Block
    ⟨0x67452301, 0xefcdab89, 0x98badcfe, 0x10325476⟩
  wordLEBytes final.a ++ wordLEBytes final.b ++ wordLEBytes final.c ++ wordLEBytes final.d

/-- A hex digit as the character `hexdigest` uses (lowercase). -/
def hexDigitChar (n : Nat) : Char :=
  if n < 10 then Char.ofNat (48 + n) else Char.ofNat (87 + n)

/-- The two hex characters of one byte. -/
def byteHexChars (b : Nat) : List Char :=
  [hexDigitChar ((b / 16) % 16), hexDigitChar (b % 16)]

/-- Python `hashlib.md5(msg).hexdigest()` as a character list (32 hex chars). -/
def md5HexChars (msg : List Nat) : List Char :=
  (md5Digest msg).flatMap byteHexChars

/-- Function `generate_poem_id(time24, content)`:
`hashlib.md5(f"{time24}-{content}".encode()).hexdigest()[:8]`. -/
def generate_poem_id (time24 content : String) : String :=
  ⟨(md5HexChars (strBytes (time24 ++ "-" ++ content))).take 8⟩

/-! ### The `compose` endpoint (explicit `time24` branch) and the
per-minute endpoint -/

/-- The ways the embedded `compose` body can fail: an uncaught
`ValueError` from `map(int, time24.split(':'))`, or an uncaught
`IndexError` from `schedule[minute]`. -/
inductive ComposeError where
  | valueError
  | indexError
deriving DecidableEq, Repr

/-- The fields of the `compose` response that the scheduling core
computes (`preferredFont` and `screensaver` are the constants `'INTER'`
and `False`). -/
structure ComposeResult where
  poemId : String
  time24 : String
  poem : String
deriving DecidableEq, Repr

/-- The `'time24' in body` branch of the `compose` endpoint: parse the
string, compute `minute = hours * 60 + mins`, rebuild the daily schedule,
index it with `schedule[minute]`, normalize dashes, compose
`f"{time24} — {content}"` and derive the poem id.  The content pool and
the date seed are explicit parameters. -/
def composeTime24 (pool : List ContentItem) (seed : Int) (time24 : String) :
    Except ComposeError ComposeResult :=
  match parseTime24 time24 with
  | none => .error .valueError
  | some (hours, mins) =>
    let minute := hours * 60 + mins
    let schedule := generate_daily_schedule pool seed
    match pyIndex schedule minute with
    | none => .error .indexError
    | some item =>
      let content := replaceEnDash item.content
      let poem := time24 ++ " — " ++ content
      .ok ⟨generate_poem_id time24 poem, time24, poem⟩

/-- The ways `clock_at_minute` can fail: the explicit 400 response for a
minute outside `[0, 1439]`, or an uncaught `IndexError` from
`schedule[minute]`. -/
inductive MinuteError where
  | badRange
  | indexError
deriving DecidableEq, Repr

/-- The `/api/v1/clock/minute/<int:minute>` endpoint: reject minutes
outside `[0, 1439]` with a 400 error, then index the freshly built
schedule with `schedule[minute]`. -/
def clock_at_minute (pool : List α) (seed : Int) (minute : Int) :
    Except MinuteError α :=
  if minute < 0 ∨ 1440 ≤ minute then .error .badRange
  else
    match pyIndex (generate_daily_schedule pool seed) minute with
    | none => .error .indexError
    | some item => .ok item

/-- Zero-padded two-digit rendering (`f'{n:02d}'` for `n < 100`), used to
present a valid clock reading "HH:MM" to the parser. -/
def fmt2 (n : Nat) : String :=
  ⟨[Char.ofNat (48 + n / 10), Char.ofNat (48 + n % 10)]⟩

/-! ### Lemmas about the shuffle and the schedule -/

theorem set_get_self (l : List α) (i : Nat) (h : i < l.length) :
    l.set i (l.get ⟨i, h⟩) = l := by
  induction l generalizing i with
  | nil => simp at h
  | cons x xs ih =>
    cases i with
    | zero => simp
    | succ n =>
      rw [List.get_eq_getElem]
      simp only [List.getElem_cons_succ, List.set_cons_succ]
      rw [← List.get_eq_getElem xs ⟨n, by simpa using h⟩, ih]

theorem swapAt_length (l : List α) (i j : Nat) :
    (swapAt l i j).length = l.length := by
  unfold swapAt
  split <;> simp

theorem count_set_add [DecidableEq α] (a b : α) :
    ∀ (l : List α) (i : Nat) (h : i < l.length),
      (l.set i b).count a + (if l.get ⟨i, h⟩ = a then 1 else 0)
        = l.count a + (if b = a then 1 else 0) := by
  intro l
  induction l with
  | nil => intro i h; simp at h
  | cons x xs ih =>
    intro i h
    cases i with
    | zero =>
      simp only [List.set_cons_zero, List.count_cons, List.get, beq_iff_eq]
      omega
    | succ n =>
      have hn : n < xs.length := by simpa using h
      have := ih n hn
      simp only [List.set_cons_succ, List.count_cons, List.get, beq_iff_eq] at *
      omega

theorem swapAt_count [DecidableEq α] (a : α) (l : List α) (i j : Nat) :
    (swapAt l i j).count a = l.count a := by
  unfold swapAt
  split
  case isFalse => rfl
  case isTrue hand =>
    obtain ⟨hi, hj⟩ := hand
    by_cases hij : i = j
    · subst hij
      rw [List.set_set, set_get_self]
    · have hj2 : j < (l.set i (l.get ⟨j, hj⟩)).length := by simpa using hj
      have hinner := count_set_add a (l.get ⟨j, hj⟩) l i hi
      have houter := count_set_add a (l.get ⟨i, hi⟩) (l.set i (l.get ⟨j, hj⟩)) j hj2
      have hgs : (l.set i (l.get ⟨j, hj⟩)).get ⟨j, hj2⟩ = l.get ⟨j, hj⟩ := by
        simp only [List.get_eq_getElem]
        exact List.getElem_set_ne hij _
      rw [hgs] at houter
      omega

theorem swapAt_perm [DecidableEq α] (l : List α) (i j : Nat) :
    (swapAt l i j).Perm l :=
  List.perm_iff_count.mpr fun a => swapAt_count a l i j

theorem fyLoop_length (r : SeededRandom) (l : List α) (n : Nat) :
    (fyLoop r l n).length = l.length := by
  induction n generalizing r l with
  | zero => rfl
  | succ i ih => rw [fyLoop, ih, swapAt_length]

theorem fyLoop_count [DecidableEq α] (a : α) (r : SeededRandom) (l : List α)
    (n : Nat) : (fyLoop r l n).count a = l.count a := by
  induction n generalizing r l with
  | zero => rfl
  | succ i ih => rw [fyLoop, ih, swapAt_count]

theorem fyLoop_perm [DecidableEq α] (r : SeededRandom) (l : List α) (n : Nat) :
    (fyLoop r l n).Perm l :=
  List.perm_iff_count.mpr fun a => fyLoop_count a r l n

theorem shuffle_with_seed_length (l : List α) (seed : Int) :
    (shuffle_with_seed l seed).length = l.length :=
  fyLoop_length _ _ _

theorem shuffle_with_seed_perm [DecidableEq α] (l : List α) (seed : Int) :
    (shuffle_with_seed l seed).Perm l :=
  fyLoop_perm _ _ _

theorem tripled_eq_specWorking (pool : List α) :
    tripled pool = specWorking pool := by
  suffices h : ∀ (acc : List α),
      pool.foldl (fun acc item => acc ++ [item, item, item]) acc
        = acc ++ specWorking pool by
    simpa using h []
  induction pool with
  | nil => intro acc; simp [specWorking]
  | cons x xs ih =>
    intro acc
    simp only [List.foldl_cons, ih, specWorking, List.flatMap_cons]
    simp

theorem specWorking_length (pool : List α) :
    (specWorking pool).length = 3 * pool.length := by
  induction pool with
  | nil => rfl
  | cons x xs ih =>
    simp only [specWorking, List.flatMap_cons, List.length_append] at *
    simp [ih]
    omega

theorem specWorking_count [DecidableEq α] (a : α) (pool : List α) :
    (specWorking pool).count a = 3 * pool.count a := by
  induction pool with
  | nil => rfl
  | cons x xs ih =>
    simp only [specWorking, List.flatMap_cons, List.count_append,
      List.count_cons, List.count_nil] at *
    rw [ih]
    by_cases hx : (x == a) = true <;> (simp [hx]; try omega)

theorem schedule_length (pool : List α) (seed : Int) :
    (generate_daily_schedule pool seed).length = 3 * pool.length := by
  rw [generate_daily_schedule, shuffle_with_seed_length, tripled_eq_specWorking,
    specWorking_length]

theorem schedule_count [DecidableEq α] (a : α) (pool : List α) (seed : Int) :
    (generate_daily_schedule pool seed).count a = 3 * pool.count a := by
  rw [generate_daily_schedule, shuffle_with_seed, fyLoop_count,
    tripled_eq_specWorking, specWorking_count]

theorem schedule_perm [DecidableEq α] (pool : List α) (seed : Int) :
    (generate_daily_schedule pool seed).Perm (tripled pool) :=
  shuffle_with_seed_perm _ _

/-- The specification's `floor(next() * (i + 1))`, computed on the exact
value of `next()`, is the integer division `s * (i + 1) / 233280` of the
post-update state; this justifies the computable twin `specFYLoopInt`. -/
theorem int_div_eq_floor (s : Int) (k : Nat) :
    s * (k : Int) / 233280 = ⌊((s : ℚ) / 233280) * (k : ℚ)⌋ := by
  rw [div_mul_eq_mul_div]
  rw [show ((s : ℚ) * (k : ℚ)) = ((s * (k : Int) : Int) : ℚ) by push_cast; ring]
  rw [show (233280 : ℚ) = ((233280 : Nat) : ℚ) by norm_num]
  rw [Rat.floor_intCast_div_natCast]
  norm_num

theorem exactDraw_eq_intDiv (s : Int) (k : Nat) :
    exactDraw s k = ((s * (k : Int)) / 233280).toNat := by
  rw [exactDraw, int_div_eq_floor]

theorem specFYLoopInt_eq_specFYLoop (r : SeededRandom) (l : List α) (n : Nat) :
    specFYLoopInt r l n = specFYLoop r l n := by
  induction n generalizing r l with
  | zero => rfl
  | succ i ih =>
    rw [specFYLoopInt, specFYLoop]
    simp only [SeededRandom.next]
    rw [ih]
    congr 2
    have h1 : ((i : Int) + 2) = ((i + 2 : Nat) : Int) := by push_cast; ring
    have h2 : (((i + 1 : Nat) : ℚ) + 1) = ((i + 2 : Nat) : ℚ) := by push_cast; ring
    rw [h1, h2, int_div_eq_floor]

theorem specScheduleInt_eq_specSchedule (pool : List α) (seed : Int) :
    specScheduleInt pool seed = specSchedule pool seed := by
  rw [specScheduleInt, specSchedule, specFYLoopInt_eq_specFYLoop]

theorem fyLoop_eq_specFYLoopFloat (r : SeededRandom) (l : List α) (n : Nat) :
    fyLoop r l n = specFYLoopFloat r l n := by
  induction n generalizing r l with
  | zero => rfl
  | succ i ih =>
    rw [fyLoop, specFYLoopFloat]
    simp only [SeededRandom.step]
    exact ih _ _

theorem states_add (seed : Int) (m n : Nat) :
    SeededRandom.states seed (m + n)
      = SeededRandom.states (SeededRandom.states seed m).seed n := by
  induction n with
  | zero => rfl
  | succ n ih =>
    rw [show m + (n + 1) = (m + n) + 1 from rfl, SeededRandom.states, ih,
      SeededRandom.states]

/-! ### Lemmas about parsing, indexing and the compose endpoint -/

theorem splitCh_ne_nil (sep : Char) : ∀ (cs : List Char), splitCh sep cs ≠ [] := by
  intro cs
  cases cs with
  | nil => simp [splitCh]
  | cons c cs =>
    rw [splitCh]
    split
    · simp
    · split <;> simp

theorem splitCh_one (sep : Char) :
    ∀ (cs g : List Char), splitCh sep cs = [g] → cs = g := by
  intro cs
  induction cs with
  | nil => intro g h; simpa [splitCh] using h.symm
  | cons c cs ih =>
    intro g h
    rw [splitCh] at h
    split at h
    · exact absurd (List.cons.inj h).2 (splitCh_ne_nil sep cs)
    · split at h
      · exact absurd ‹splitCh sep cs = []› (splitCh_ne_nil sep cs)
      · rename_i g' gs hr
        obtain ⟨h1, h2⟩ := List.cons.inj h
        subst h1
        have : gs = [] := by simpa using h2
        subst this
        rw [ih g' hr]

theorem splitCh_two (sep : Char) :
    ∀ (cs a b : List Char), splitCh sep cs = [a, b] → cs = a ++ sep :: b := by
  intro cs
  induction cs with
  | nil => intro a b h; simp [splitCh] at h
  | cons c cs ih =>
    intro a b h
    rw [splitCh] at h
    split at h
    · rename_i hc
      obtain ⟨h1, h2⟩ := List.cons.inj h
      subst h1
      rw [hc, splitCh_one sep cs b h2]
      rfl
    · rename_i hc
      split at h
      · exact absurd ‹splitCh sep cs = []› (splitCh_ne_nil sep cs)
      · rename_i g' gs hr
        obtain ⟨h1, h2⟩ := List.cons.inj h
        subst h1
        rw [List.cons_append]
        rw [← ih g' b (by rw [hr, h2])]

theorem mem_dropWhile_or (p : Char → Bool) (c : Char) :
    ∀ (cs : List Char), c ∈ cs → c ∈ cs.dropWhile p ∨ p c = true := by
  intro cs
  induction cs with
  | nil => intro h; simp at h
  | cons x xs ih =>
    intro hc
    rw [List.dropWhile]
    rcases List.mem_cons.mp hc with h | h
    · subst h
      split
      · exact Or.inr ‹_›
      · exact Or.inl (List.mem_cons_self _ _)
    · split
      · exact ih h
      · exact Or.inl (List.mem_cons_of_mem _ h)

theorem mem_stripSpaces_or (c : Char) (cs : List Char) (hc : c ∈ cs) :
    c ∈ stripSpaces cs ∨ isPySpace c = true := by
  rw [stripSpaces]
  rcases mem_dropWhile_or isPySpace c cs hc with h | h
  · rw [← List.mem_reverse] at h
    rcases mem_dropWhile_or isPySpace c _ h with h2 | h2
    · exact Or.inl (List.mem_reverse.mpr h2)
    · exact Or.inr h2
  · exact Or.inr h

theorem digitsVal_all (cs : List Char) (n : Nat) (h : digitsVal cs = some n) :
    ∀ c ∈ cs, c.isDigit = true := by
  rw [digitsVal] at h
  split at h
  · rename_i hcond
    intro c hc
    exact List.all_eq_true.mp hcond.2 c hc
  · exact absurd h (by simp)

theorem pyInt_chars (cs : List Char) (v : Int) (h : pyInt cs = some v) :
    ∀ c ∈ cs, isPySpace c = true ∨ c = '+' ∨ c = '-' ∨ c.isDigit = true := by
  intro c hc
  rcases mem_stripSpaces_or c cs hc with hm | hsp
  · rw [pyInt] at h
    split at h
    · rename_i rest heq
      rw [heq] at hm
      rcases List.mem_cons.mp hm with h1 | h1
      · exact Or.inr (Or.inl h1)
      · cases hd : digitsVal rest with
        | none => rw [hd] at h; exact absurd h (by simp)
        | some n => exact Or.inr (Or.inr (Or.inr (digitsVal_all rest n hd c h1)))
    · rename_i rest heq
      rw [heq] at hm
      rcases List.mem_cons.mp hm with h1 | h1
      · exact Or.inr (Or.inr (Or.inl h1))
      · cases hd : digitsVal rest with
        | none => rw [hd] at h; exact absurd h (by simp)
        | some n => exact Or.inr (Or.inr (Or.inr (digitsVal_all rest n hd c h1)))
    · cases hd : digitsVal (stripSpaces cs) with
      | none => rw [hd] at h; exact absurd h (by simp)
      | some n => exact Or.inr (Or.inr (Or.inr (digitsVal_all _ n hd c hm)))
  · exact Or.inl hsp

/-- A string for which `map(int, t.split(':'))` succeeds contains no
en dash: every character is the separator, whitespace, a sign, or a
decimal digit. -/
theorem parse_no_endash (t : String) (hh mm : Int)
    (h : parseTime24 t = some (hh, mm)) : '–' ∉ t.data := by
  intro hmem
  rw [parseTime24] at h
  split at h
  · rename_i a b hsplit
    have hdata := splitCh_two ':' t.data a b hsplit
    rw [hdata] at hmem
    split at h
    · rename_i va vb ha hb
      rcases List.mem_append.mp hmem with hma | hmb
      · rcases pyInt_chars a va ha '–' hma with hx | hx | hx | hx <;>
          exact absurd hx (by decide)
      · rcases List.mem_cons.mp hmb with hx | hmb2
        · exact absurd hx (by decide)
        · rcases pyInt_chars b vb hb '–' hmb2 with hx | hx | hx | hx <;>
            exact absurd hx (by decide)
    · exact absurd h (by simp)
  · exact absurd h (by simp)

theorem get?_isSome_iff (l : List α) (m : Nat) :
    (l.get? m).isSome = true ↔ m < l.length := by
  constructor
  · intro h
    by_contra hlt
    rw [List.get?_eq_none.mpr (by omega)] at h
    simp at h
  · intro h
    rw [List.get?_eq_getElem?, List.getElem?_eq_getElem h]
    rfl

theorem pyIndex_ofNat (l : List α) (m : Nat) : pyIndex l (m : Int) = l.get? m := by
  simp [pyIndex]

theorem pyIndex_neg (l : List α) (i : Int) (hneg : i < 0)
    (hbound : 0 ≤ (l.length : Int) + i) :
    pyIndex l i = l.get? ((l.length : Int) + i).toNat := by
  rw [pyIndex, if_neg (by omega)]
  exact if_pos hbound

theorem composeTime24_ok_of (pool : List ContentItem) (seed : Int) (t : String)
    (hh mm : Int) (hp : parseTime24 t = some (hh, mm)) (item : ContentItem)
    (hitem : pyIndex (generate_daily_schedule pool seed) (hh * 60 + mm) = some item) :
    composeTime24 pool seed t =
      .ok ⟨generate_poem_id t (t ++ " — " ++ replaceEnDash item.content), t,
           t ++ " — " ++ replaceEnDash item.content⟩ := by
  rw [composeTime24, hp]
  simp only [hitem]

theorem composeTime24_valueError_iff (pool : List ContentItem) (seed : Int)
    (t : String) :
    composeTime24 pool seed t = .error .valueError ↔ parseTime24 t = none := by
  rw [composeTime24]
  constructor
  · intro h
    split at h
    · assumption
    · simp only at h
      split at h
      · simp at h
      · simp at h
  · intro h
    rw [h]

theorem composeTime24_ok_shape (pool : List ContentItem) (seed : Int)
    (t : String) (out : ComposeResult) (h : composeTime24 pool seed t = .ok out) :
    ∃ hh mm item, parseTime24 t = some (hh, mm) ∧
      pyIndex (generate_daily_schedule pool seed) (hh * 60 + mm) = some item ∧
      out = ⟨generate_poem_id t (t ++ " — " ++ replaceEnDash item.content), t,
             t ++ " — " ++ replaceEnDash item.content⟩ := by
  rw [composeTime24] at h
  split at h
  · simp at h
  · rename_i p hh mm hp
    simp only at h
    split at h
    · simp at h
    · rename_i item hitem
      exact ⟨hh, mm, item, hp, hitem, by simpa using h.symm⟩

/-! ### Claim theorems -/

/-- C1: for every content pool and every integer seed, building the daily
schedule twice with the same seed and the same pool yields identical
sequences, element for element — the builder is a pure function of the
seed and the pool (contents and order). -/
theorem C1_schedule_deterministic {α : Type} (P₁ P₂ : List α) (s₁ s₂ : Int)
    (hP : P₁ = P₂) (hs : s₁ = s₂) :
    generate_daily_schedule P₁ s₁ = generate_daily_schedule P₂ s₂ ∧
    ∀ i : Nat, (generate_daily_schedule P₁ s₁).get? i
      = (generate_daily_schedule P₂ s₂).get? i := by
  subst hP; subst hs; exact ⟨rfl, fun _ => rfl⟩

theorem C1_schedule_deterministic_witness :
    ([1, 2] : List Nat) = [1, 2] ∧
    generate_daily_schedule ([1, 2] : List Nat) 20240101
      = generate_daily_schedule ([1, 2] : List Nat) 20240101 :=
  ⟨rfl, (C1_schedule_deterministic [1, 2] [1, 2] 20240101 20240101 rfl rfl).1⟩

/-- C2: for every non-empty pool and every seed, the built schedule is a
permutation of the pool tripled — each pool entry occurs exactly three
times (counted with multiplicity; exactly 3 per item when the pool has no
duplicates), and the output length is `3 * len(pool)`, not necessarily
1440. -/
theorem C2_triple_coverage {α : Type} [DecidableEq α] (P : List α) (s : Int)
    (_hne : P ≠ []) :
    (generate_daily_schedule P s).Perm (tripled P) ∧
    (∀ a : α, (generate_daily_schedule P s).count a = 3 * P.count a) ∧
    (generate_daily_schedule P s).length = 3 * P.length ∧
    (P.Nodup → ∀ a ∈ P, (generate_daily_schedule P s).count a = 3) := by
  refine ⟨schedule_perm P s, fun a => schedule_count a P s, schedule_length P s, ?_⟩
  intro hnd a ha
  rw [schedule_count, List.count_eq_one_of_mem hnd ha]

theorem C2_triple_coverage_witness :
    ([1, 2] : List Nat) ≠ [] ∧
    (generate_daily_schedule ([1, 2] : List Nat) 20240101).length
      = 3 * ([1, 2] : List Nat).length :=
  ⟨by decide, (C2_triple_coverage [1, 2] 20240101 (by decide)).2.2.1⟩

set_option maxRecDepth 8000 in
/-- C3 counterexample: the builder does not follow the specified
algorithm exactly.  The program evaluates the draw in binary64, and at
the reachable PRNG state 67392 that differs from the spec's exact
`floor(next() * (i + 1))`: with multiplier 45 the program draws 12 where
the spec draws 13 (and with multiplier 1080, reached from the real date
seed 20240315 at the 361st call, it draws 311 where the spec draws 312).
Concretely, on a 15-item pool with seed 167795 — whose first draw hits
state 67392 with multiplier 45 — the built schedule differs from the
specification's schedule. -/
theorem C3_counterexample :
    floatDraw 67392 45 = 12 ∧ exactDraw 67392 45 = 13 ∧
    SeededRandom.states 20240315 361 = ⟨67392⟩ ∧
    floatDraw 67392 1080 = 311 ∧ exactDraw 67392 1080 = 312 ∧
    generate_daily_schedule (List.range 15) 167795
      ≠ specSchedule (List.range 15) 167795 := by
  have h90 : SeededRandom.states 20240315 90 = ⟨146465⟩ := by decide
  have h180 : SeededRandom.states 146465 90 = ⟨95255⟩ := by decide
  have h270 : SeededRandom.states 95255 90 = ⟨24605⟩ := by decide
  have h361 : SeededRandom.states 24605 91 = ⟨67392⟩ := by decide
  have a180 : SeededRandom.states 20240315 180 = ⟨95255⟩ := by
    rw [show (180 : Nat) = 90 + 90 from rfl, states_add, h90]
    exact h180
  have a270 : SeededRandom.states 20240315 270 = ⟨24605⟩ := by
    rw [show (270 : Nat) = 180 + 90 from rfl, states_add, a180]
    exact h270
  have a361 : SeededRandom.states 20240315 361 = ⟨67392⟩ := by
    rw [show (361 : Nat) = 270 + 91 from rfl, states_add, a270]
    exact h361
  refine ⟨by decide, ?_, a361, by decide, ?_, ?_⟩
  · rw [exactDraw_eq_intDiv]; decide
  · rw [exactDraw_eq_intDiv]; decide
  · rw [← specScheduleInt_eq_specSchedule]
    decide

/-- C3 (amended): the schedule builder follows the specified algorithm —
push each pool item 3 times consecutively in pool order, then
Fisher–Yates from `length - 1` down to `1` swapping positions `i` and `j`
— except that the draw `j` is not the exact `floor(next() * (i + 1))`
but its IEEE-754 binary64 evaluation (`int` of the float product), which
can differ from the exact floor at reachable states. -/
theorem C3_float_algorithm {α : Type} (P : List α) (s : Int) :
    generate_daily_schedule P s = specScheduleFloat P s ∧
    tripled P = specWorking P := by
  refine ⟨?_, tripled_eq_specWorking P⟩
  rw [generate_daily_schedule, shuffle_with_seed, specScheduleFloat,
    tripled_eq_specWorking, fyLoop_eq_specFYLoopFloat]

/-- C6: every `next()` call updates the state to
`(state * 9301 + 49297) mod 233280` and returns `state / 233280`, a value
in `[0, 1)`; generators built from equal seeds produce the same infinite
output sequence. -/
theorem C6_prng_contract (r : SeededRandom) (s₁ s₂ : Int) (h : s₁ = s₂) :
    r.next = (⟨(r.seed * 9301 + 49297) % 233280⟩,
              (((r.seed * 9301 + 49297) % 233280 : Int) : ℚ) / 233280) ∧
    (0 ≤ r.next.2 ∧ r.next.2 < 1) ∧
    ∀ n : Nat, SeededRandom.outputs s₁ n = SeededRandom.outputs s₂ n := by
  have hnn : (0 : Int) ≤ (r.seed * 9301 + 49297) % 233280 :=
    Int.emod_nonneg _ (by norm_num)
  have hlt : (r.seed * 9301 + 49297) % 233280 < 233280 :=
    Int.emod_lt_of_pos _ (by norm_num)
  refine ⟨rfl, ⟨?_, ?_⟩, fun n => by rw [h]⟩
  · show (0 : ℚ) ≤ (((r.seed * 9301 + 49297) % 233280 : Int) : ℚ) / 233280
    exact div_nonneg (by exact_mod_cast hnn) (by norm_num)
  · show (((r.seed * 9301 + 49297) % 233280 : Int) : ℚ) / 233280 < 1
    rw [div_lt_one (by norm_num)]
    exact_mod_cast hlt

theorem C6_prng_contract_witness :
    (7 : Int) = 7 ∧ 0 ≤ (SeededRandom.mk 42).next.2 :=
  ⟨rfl, (C6_prng_contract ⟨42⟩ 7 7 rfl).2.1.1⟩

/-- C7: for minutes `m ≤ 1439`, the schedule lookup is in bounds iff
`m < 3 * len(pool)`; the per-minute endpoint's guard checks `m` against
the constant 1440, not the real schedule length, so for a 1-item pool the
guard admits minute 3 and the lookup raises `IndexError`. -/
theorem C7_minute_bounds {α : Type} (pool : List α) (seed : Int) (m : Nat)
    (_hm : m ≤ 1439) :
    (((generate_daily_schedule pool seed).get? m).isSome = true
      ↔ m < 3 * pool.length) ∧
    clock_at_minute ([0] : List Nat) 20240101 3 = .error .indexError := by
  constructor
  · rw [get?_isSome_iff, schedule_length]
  · rw [clock_at_minute, if_neg (by norm_num)]
    have hp : pyIndex (generate_daily_schedule ([0] : List Nat) 20240101) 3 = none := by
      rw [show (3 : Int) = ((3 : Nat) : Int) from rfl, pyIndex_ofNat,
        List.get?_eq_none, schedule_length]
      norm_num
    rw [hp]

theorem C7_minute_bounds_witness :
    (5 : Nat) ≤ 1439 ∧
    (((generate_daily_schedule ([1, 2, 3] : List Nat) 1).get? 5).isSome = true
      ↔ 5 < 3 * ([1, 2, 3] : List Nat).length) :=
  ⟨by decide, (C7_minute_bounds [1, 2, 3] 1 5 (by decide)).1⟩

theorem parseTime24_some_shape (t : String) (hh mm : Int)
    (h : parseTime24 t = some (hh, mm)) :
    ∃ a b, splitCh ':' t.data = [a, b] ∧ pyInt a = some hh ∧ pyInt b = some mm := by
  rw [parseTime24] at h
  split at h
  · rename_i a b heq
    split at h
    · rename_i va vb hva hvb
      obtain ⟨h1, h2⟩ := Prod.mk.inj (Option.some.inj h)
      subst h1; subst h2
      exact ⟨a, b, heq, hva, hvb⟩
    · exact absurd h (by simp)
  · exact absurd h (by simp)

theorem parseTime24_eq_of (t : String) (a b : List Char) (va vb : Int)
    (hsp : splitCh ':' t.data = [a, b]) (hpa : pyInt a = some va)
    (hpb : pyInt b = some vb) : parseTime24 t = some (va, vb) := by
  rw [parseTime24, hsp]
  simp only [hpa, hpb]

theorem parseTime24_isSome_iff (t : String) :
    (parseTime24 t).isSome = true ↔
      ∃ a b, splitCh ':' t.data = [a, b] ∧
        (pyInt a).isSome = true ∧ (pyInt b).isSome = true := by
  constructor
  · intro hs
    obtain ⟨p, hp⟩ := Option.isSome_iff_exists.mp hs
    obtain ⟨a, b, hsp, hpa, hpb⟩ := parseTime24_some_shape t p.1 p.2 (by rw [hp])
    exact ⟨a, b, hsp, by rw [hpa]; rfl, by rw [hpb]; rfl⟩
  · rintro ⟨a, b, hsp, ha, hb⟩
    obtain ⟨va, hva⟩ := Option.isSome_iff_exists.mp ha
    obtain ⟨vb, hvb⟩ := Option.isSome_iff_exists.mp hb
    rw [parseTime24_eq_of t a b va vb hsp hva hvb]
    rfl

theorem replaceEnDash_no_endash (s : String) :
    '–' ∉ (replaceEnDash s).data := by
  rw [replaceEnDash]
  intro hmem
  obtain ⟨c, -, hmap⟩ := List.mem_map.mp hmem
  by_cases hc : c = '–'
  · rw [if_pos hc] at hmap
    exact absurd hmap (by decide)
  · rw [if_neg hc] at hmap
    exact hc hmap

theorem byteHexChars_flatMap_length :
    ∀ (bs : List Nat), (bs.flatMap byteHexChars).length = 2 * bs.length := by
  intro bs
  induction bs with
  | nil => rfl
  | cons b bs ih =>
    rw [List.flatMap_cons, List.length_append, ih, byteHexChars]
    simp
    omega

theorem md5Digest_length (msg : List Nat) : (md5Digest msg).length = 16 := by
  rw [md5Digest]
  simp [wordLEBytes]

theorem md5HexChars_length (msg : List Nat) : (md5HexChars msg).length = 32 := by
  rw [md5HexChars, byteHexChars_flatMap_length, md5Digest_length]

theorem hexDigitChar_mem (n : Nat) (h : n < 16) :
    hexDigitChar n ∈ "0123456789abcdef".data := by
  interval_cases n <;> decide

theorem md5HexChars_mem (msg : List Nat) (c : Char) (hc : c ∈ md5HexChars msg) :
    c ∈ "0123456789abcdef".data := by
  rw [md5HexChars] at hc
  obtain ⟨b, -, hcb⟩ := List.mem_flatMap.mp hc
  rw [byteHexChars] at hcb
  rcases List.mem_cons.mp hcb with h1 | h1
  · rw [h1]
    exact hexDigitChar_mem _ (Nat.mod_lt _ (by norm_num))
  · rcases List.mem_cons.mp h1 with h2 | h2
    · rw [h2]
      exact hexDigitChar_mem _ (Nat.mod_lt _ (by norm_num))
    · simp at h2

theorem generate_poem_id_length (t c : String) :
    (generate_poem_id t c).length = 8 := by
  rw [generate_poem_id]
  show ((md5HexChars (strBytes (t ++ "-" ++ c))).take 8).length = 8
  rw [List.length_take, md5HexChars_length]
  norm_num

theorem parse_fmt2 : ∀ h : Nat, h < 24 → ∀ m : Nat, m < 60 →
    parseTime24 (fmt2 h ++ ":" ++ fmt2 m) = some ((h : Int), (m : Int)) := by
  decide

/-- C4 counterexample: the claim says `"25:00"` fails with
`InvalidTimeFormat`, but the code performs no range validation — `"25:00"`
parses to `(25, 0)` (minute 1500) and, on a 501-item pool, the compose
endpoint succeeds and serves a schedule entry instead of failing. -/
theorem C4_counterexample :
    parseTime24 "25:00" = some (25, 0) ∧
    ∃ out, composeTime24 (List.replicate 501 ⟨"x", "c"⟩) 7 "25:00"
      = .ok out := by
  refine ⟨by decide, ?_⟩
  have hsome : ((generate_daily_schedule
      (List.replicate 501 (⟨"x", "c"⟩ : ContentItem)) 7).get? 1500).isSome
        = true := by
    rw [get?_isSome_iff, schedule_length, List.length_replicate]
    norm_num
  obtain ⟨item, hitem⟩ := Option.isSome_iff_exists.mp hsome
  refine ⟨_, composeTime24_ok_of _ _ _ 25 0 (by decide) item ?_⟩
  rw [show (25 * 60 + 0 : Int) = ((1500 : Nat) : Int) from by norm_num,
    pyIndex_ofNat]
  exact hitem

/-- C4 (amended): resolving an explicit time string fails — with an
uncaught `ValueError`, there is no typed `InvalidTimeFormat` — exactly
when the string is not two colon-separated integer literals; the hour and
minute ranges are not validated (`"25:00"` resolves to minute 1500, see
the counterexample; `"bogus"` does fail); a successful resolution echoes
the submitted label verbatim, and its minute `H*60+M` is not confined to
`[0, 1439]`. -/
theorem C4_amended (pool : List ContentItem) (seed : Int) (t : String) :
    (composeTime24 pool seed t = .error .valueError ↔ parseTime24 t = none) ∧
    ((parseTime24 t).isSome = true ↔ ∃ a b, splitCh ':' t.data = [a, b] ∧
      (pyInt a).isSome = true ∧ (pyInt b).isSome = true) ∧
    parseTime24 "bogus" = none ∧
    ∀ out, composeTime24 pool seed t = .ok out → out.time24 = t := by
  refine ⟨composeTime24_valueError_iff pool seed t, parseTime24_isSome_iff t,
    by decide, ?_⟩
  intro out hout
  obtain ⟨hh, mm, item, -, -, hshape⟩ := composeTime24_ok_shape pool seed t out hout
  rw [hshape]

theorem C4_amended_witness : parseTime24 "bogus" = none :=
  (C4_amended [] 0 "x").2.2.1

/-- C5: every valid explicit time `"HH:MM"` (zero-padded, `H ∈ [0,23]`,
`M ∈ [0,59]`) parses back to `(H, M)` and resolves to exactly
`minute = H*60 + M`, which lies in `[0, 1439]`. -/
theorem C5_explicit_time (h : Nat) (hh : h < 24) (m : Nat) (hm : m < 60) :
    parseTime24 (fmt2 h ++ ":" ++ fmt2 m) = some ((h : Int), (m : Int)) ∧
    resolvedMinute (fmt2 h ++ ":" ++ fmt2 m) = some ((h : Int) * 60 + (m : Int)) ∧
    0 ≤ (h : Int) * 60 + (m : Int) ∧ (h : Int) * 60 + (m : Int) ≤ 1439 := by
  refine ⟨parse_fmt2 h hh m hm, ?_, by omega, by omega⟩
  rw [resolvedMinute, parse_fmt2 h hh m hm]
  rfl

theorem C5_explicit_time_witness :
    ((12 : Nat) < 24 ∧ (34 : Nat) < 60) ∧
    resolvedMinute (fmt2 12 ++ ":" ++ fmt2 34) = some 754 := by
  refine ⟨⟨by norm_num, by norm_num⟩, ?_⟩
  have h12 := (C5_explicit_time 12 (by norm_num) 34 (by norm_num)).2.1
  norm_num at h12
  exact h12

/-- C8: on every successful compose, the served poem is
`"{time24} — {content}"` with an em-dash separator, where the content has
every en dash replaced by a plain hyphen, and no en dash remains anywhere
in the poem. -/
theorem C8_normalization (pool : List ContentItem) (seed : Int) (t : String)
    (out : ComposeResult) (h : composeTime24 pool seed t = .ok out) :
    '–' ∉ out.poem.data ∧
    ∃ item : ContentItem, out.poem = t ++ " — " ++ replaceEnDash item.content ∧
      '–' ∉ (replaceEnDash item.content).data := by
  obtain ⟨hh, mm, item, hp, -, hout⟩ := composeTime24_ok_shape pool seed t out h
  have hnd : '–' ∉ (replaceEnDash item.content).data := replaceEnDash_no_endash _
  have ht : '–' ∉ t.data := parse_no_endash t hh mm hp
  rw [hout]
  refine ⟨?_, item, rfl, hnd⟩
  intro hmem
  rw [String.data_append, String.data_append] at hmem
  rcases List.mem_append.mp hmem with h1 | h1
  · rcases List.mem_append.mp h1 with h2 | h2
    · exact ht h2
    · exact absurd h2 (by decide)
  · exact hnd h1

theorem C8_normalization_witness :
    ∃ out, composeTime24 [⟨"a–b", "c"⟩] 1 "0:0" = Except.ok out ∧
      '–' ∉ out.poem.data := by
  have hsome : ((generate_daily_schedule
      ([⟨"a–b", "c"⟩] : List ContentItem) 1).get? 0).isSome = true := by
    rw [get?_isSome_iff, schedule_length]
    norm_num
  obtain ⟨item, hitem⟩ := Option.isSome_iff_exists.mp hsome
  have hok := composeTime24_ok_of [⟨"a–b", "c"⟩] 1 "0:0" 0 0 (by decide) item
    (by rw [show (0 * 60 + 0 : Int) = ((0 : Nat) : Int) from by norm_num,
          pyIndex_ofNat]
        exact hitem)
  exact ⟨_, hok, (C8_normalization _ _ _ _ hok).1⟩

/-- C9: the poem identifier is the first 8 hex characters of the MD5 hash
of the UTF-8 bytes of `"{time24}-{composed string}"`; it is 8 characters
long, consists of hex digits, and identical inputs always yield the
identical identifier. -/
theorem C9_poem_id (t c t' c' : String) (ht : t = t') (hc : c = c') :
    generate_poem_id t c = ⟨(md5HexChars (strBytes (t ++ "-" ++ c))).take 8⟩ ∧
    (generate_poem_id t c).length = 8 ∧
    (∀ ch ∈ (generate_poem_id t c).data, ch ∈ "0123456789abcdef".data) ∧
    generate_poem_id t c = generate_poem_id t' c' := by
  subst ht; subst hc
  refine ⟨rfl, generate_poem_id_length t c, ?_, rfl⟩
  intro ch hch
  rw [generate_poem_id] at hch
  exact md5HexChars_mem _ ch (List.take_subset _ _ hch)

theorem C9_poem_id_witness :
    ("12:30" : String) = "12:30" ∧ (generate_poem_id "12:30" "x").length = 8 :=
  ⟨rfl, (C9_poem_id "12:30" "x" "12:30" "x" rfl rfl).2.1⟩

/-- C10: a parsed time whose total minute is negative, such as `"-1:30"`
(minute −30), does not make compose fail: Python's negative indexing
silently wraps the lookup to `schedule[len(schedule) + minute]`. -/
theorem C10_negative_wrap (pool : List ContentItem) (seed : Int)
    (hlen : 30 ≤ 3 * pool.length) :
    parseTime24 "-1:30" = some (-1, 30) ∧
    resolvedMinute "-1:30" = some (-30) ∧
    (∀ m : Int, m < 0 → 0 ≤ m + 3 * pool.length →
      pyIndex (generate_daily_schedule pool seed) m
        = (generate_daily_schedule pool seed).get?
            ((3 * (pool.length : Int) + m).toNat)) ∧
    ∃ out item, composeTime24 pool seed "-1:30" = .ok out ∧
      (generate_daily_schedule pool seed).get? (3 * pool.length - 30)
        = some item ∧
      out.poem = "-1:30" ++ " — " ++ replaceEnDash item.content := by
  have hslen : ((generate_daily_schedule pool seed).length : Int)
      = 3 * (pool.length : Int) := by
    rw [schedule_length]
    push_cast
    ring
  refine ⟨by decide, by decide, ?_, ?_⟩
  · intro m hm hb
    rw [pyIndex_neg _ _ hm (by rw [hslen]; omega), hslen]
  · have htn : ((3 : Int) * (pool.length : Int) + (-30)).toNat
        = 3 * pool.length - 30 := by omega
    have hsome : ((generate_daily_schedule pool seed).get?
        (3 * pool.length - 30)).isSome = true := by
      rw [get?_isSome_iff, schedule_length]
      omega
    obtain ⟨item, hitem⟩ := Option.isSome_iff_exists.mp hsome
    have hpy : pyIndex (generate_daily_schedule pool seed) (-1 * 60 + 30)
        = some item := by
      rw [show (-1 * 60 + 30 : Int) = -30 from by norm_num]
      rw [pyIndex_neg _ _ (by norm_num) (by rw [hslen]; omega), hslen, htn]
      exact hitem
    exact ⟨_, item, composeTime24_ok_of pool seed "-1:30" (-1) 30 (by decide)
      item hpy, hitem, rfl⟩

theorem C10_negative_wrap_witness :
    30 ≤ 3 * (List.replicate 10 (⟨"a", "c"⟩ : ContentItem)).length ∧
    parseTime24 "-1:30" = some (-1, 30) :=
  ⟨by decide, (C10_negative_wrap (List.replicate 10 ⟨"a", "c"⟩) 5 (by decide)).1⟩

end ClockApi
